import Mathlib

/-!
Shallow embedding of the storage core of the stratumn SDK:
the reference in-memory store (package dummystore, `src/unnamed/part_001`),
the document-backend query translation (`src/couchstore/queries.go`),
and the agent-client `CreateMap` ingress validation exercised by
`src/unnamed/part_000`.

Go maps are modelled as association lists (`List (String × α)`); Go map
sets (`map[string]struct{}`) as duplicate-free `List String` built with
`setInsert`.  Mutation becomes explicit state passing on `DummyStore`;
functions returning `(T, error)` become `Except String T`.  Event
channels are modelled as the list of events each registered sink has
received, in registration order.
-/

namespace Sdk

/-! ### Association-list helpers (model of Go maps) -/

/-- Lookup in a Go map modelled as an association list. -/
def assocFind {α : Type} : List (String × α) → String → Option α
  | [], _ => none
  | (k, v) :: rest, key => if k = key then some v else assocFind rest key

/-- Go map assignment `m[key] = v`: replace in place or append. -/
def assocInsert {α : Type} : List (String × α) → String → α → List (String × α)
  | [], key, v => [(key, v)]
  | (k, w) :: rest, key, v =>
    if k = key then (key, v) :: rest else (k, w) :: assocInsert rest key v

/-- Go set insertion `s[h] = struct\x7b\x7d{}`: add the element if absent. -/
def setInsert (s : List String) (h : String) : List String :=
  if h ∈ s then s else s ++ [h]

/-! ### Data model (package cs, modelled from the spec) -/

/-- The link record.  `cs.Link` keeps `state` and a `meta` map; the meta
fields used by the core (`mapId`, `process`, `prevLinkHash`, `tags`,
`priority`) are flattened into the structure.  `state` is the opaque
domain payload.  Modelled from the spec (the `cs` package is not under
`src/`). -/
structure Link where
  state : String
  mapId : String
  process : String
  prevLinkHash : Option String
  tags : List String
  priority : Option Int
deriving DecidableEq

/-- `cs.Link.GetMapID`. -/
def Link.GetMapID (l : Link) : String := l.mapId

/-- Modelled from the spec: the link hash is a deterministic digest of the
link's canonical-JSON serialization — a pure injective-by-content function
of the link; two links with identical content hash identically.  The `cs`
package's `Link.Hash` is not under `src/`; its error branch never fires on
a well-formed in-memory link, so the model is total. -/
def Link.hashStr (l : Link) : String :=
  "h(" ++ l.state ++ "|" ++ l.mapId ++ "|" ++ l.process ++ "|" ++
    (match l.prevLinkHash with
     | none => "-"
     | some p => "+" ++ p) ++ "|" ++
    String.intercalate ";" l.tags ++ "|" ++
    (match l.priority with
     | none => "-"
     | some p => toString p) ++ ")"

/-- An evidence object, keyed by its `(backend, provider)` pair.
Modelled from the spec (the `cs` package is not under `src/`). -/
structure Evidence where
  backend : String
  provider : String
  proofData : String
deriving DecidableEq

/-- Modelled from the spec: an evidence set holds at most one evidence per
`(backend, provider)` pair; a second insertion for the same pair fails and
leaves the set unchanged (`cs.Evidences.AddEvidence` is not under `src/`). -/
def addToEvidences (evs : List Evidence) (e : Evidence) : Except String (List Evidence) :=
  if evs.any (fun x => x.backend == e.backend && x.provider == e.provider) then
    Except.error "evidence already exists for this backend and provider"
  else
    Except.ok (evs ++ [e])

/-- `cs.SegmentMeta`: the derived read-side metadata of a segment. -/
structure SegmentMeta where
  evidences : List Evidence
  linkHash : String
deriving DecidableEq

/-- `cs.Segment`: the read-side projection of a link. -/
structure Segment where
  link : Link
  meta : SegmentMeta
deriving DecidableEq

/-! ### Filters and pagination (package store, modelled from the spec) -/

/-- `store.Pagination`.  Modelled from the spec: `offset ≥ 0`, `limit ≥ 0`. -/
structure Pagination where
  offset : Nat
  limit : Nat
deriving DecidableEq

/-- Modelled from the spec: slicing is post-sort,
`result = sorted[offset : offset+limit]` clamped at the bounds;
`limit = 0` returns empty (not unbounded). -/
def Pagination.paginateSegments (p : Pagination) (l : List Segment) : List Segment :=
  (l.drop p.offset).take p.limit

/-- Modelled from the spec: same slicing rule for string lists. -/
def Pagination.paginateStrings (p : Pagination) (l : List String) : List String :=
  (l.drop p.offset).take p.limit

/-- `store.SegmentFilter`.  Modelled from the spec: `mapIds` a set,
`process` (empty = unset), `prevLinkHash` a nullable pointer, `tags`
all-of, `linkHashes` a set, plus pagination. -/
structure SegmentFilter where
  pagination : Pagination
  mapIds : List String
  process : String
  prevLinkHash : Option String
  tags : List String
  linkHashes : List String
deriving DecidableEq

/-- Modelled from the spec: a link matches iff every set filter field
matches; an unset field imposes no constraint.  An absent (nil)
`prevLinkHash` pointer imposes no constraint; an empty-string pointer
matches links whose `prevLinkHash` is unset (the Go representation of an
unset `prevLinkHash` is the empty string); a non-empty pointer is an
exact match.  `tags` has all-of semantics. -/
def SegmentFilter.MatchLink (f : SegmentFilter) (l : Link) : Bool :=
  (f.mapIds.isEmpty || f.mapIds.contains l.mapId) &&
  (f.process == "" || f.process == l.process) &&
  (match f.prevLinkHash with
   | none => true
   | some p => p == (l.prevLinkHash.getD "")) &&
  f.tags.all (fun t => l.tags.contains t)

/-- Modelled from the spec: segment match = link match plus the
`linkHashes` set restriction; a nil segment never matches. -/
def SegmentFilter.Match (f : SegmentFilter) (s : Option Segment) : Bool :=
  match s with
  | none => false
  | some seg =>
    (f.linkHashes.isEmpty || f.linkHashes.contains seg.meta.linkHash) &&
    f.MatchLink seg.link

/-- `store.MapFilter`.  Modelled from the spec. -/
structure MapFilter where
  pagination : Pagination
  process : String
deriving DecidableEq

/-- Modelled from the spec: a map filter matches a link iff the `process`
field is unset or equal. -/
def MapFilter.MatchLink (f : MapFilter) (l : Link) : Bool :=
  f.process == "" || f.process == l.process

/-! ### Store events (package store, modelled from the spec) -/

/-- Store events.  `SavedLinks` carries the saved links; `SavedEvidences`
carries the `(linkHash, evidence)` additions.  Modelled from the spec. -/
inductive Event where
  | savedLinks : List Link → Event
  | savedEvidences : List (String × Evidence) → Event
deriving DecidableEq

/-- `store.NewSavedLinks`. -/
def newSavedLinks (l : Link) : Event := Event.savedLinks [l]

/-- `store.NewSavedEvidences` followed by one `AddSavedEvidence`. -/
def newSavedEvidence (linkHash : String) (e : Evidence) : Event :=
  Event.savedEvidences [(linkHash, e)]

/-! ### The reference in-memory store (package dummystore) -/

/-- `dummystore.Config`. -/
structure Config where
  version : String
  commit : String
deriving DecidableEq

/-- `dummystore.Info`. -/
structure Info where
  name : String
  description : String
  version : String
  commit : String
deriving DecidableEq

/-- `dummystore.DummyStore`.  The four mappings plus the registered event
sinks; each sink is modelled as the list of events it has received so far,
kept in registration order.  The `sync.RWMutex` disappears in the
sequential model. -/
structure DummyStore where
  config : Config
  eventChans : List (List Event)
  links : List (String × Link)
  evidences : List (String × List Evidence)
  values : List (String × List Nat)
  maps : List (String × List String)
deriving DecidableEq

/-- `dummystore.New`. -/
def DummyStore.new (config : Config) : DummyStore :=
  { config := config, eventChans := [], links := [], evidences := [],
    values := [], maps := [] }

/-- `dummystore.GetInfo`. -/
def DummyStore.GetInfo (a : DummyStore) : Info :=
  { name := "dummy", description := "Indigo's Dummy Store",
    version := a.config.version, commit := a.config.commit }

/-- `dummystore.AddStoreEventChannel`: append a fresh sink. -/
def DummyStore.AddStoreEventChannel (a : DummyStore) (c : List Event) : DummyStore :=
  { a with eventChans := a.eventChans ++ [c] }

/-- Deliver an event to every registered sink (`for _, c := range
a.eventChans \x7b c <- ev \x7d`). -/
def deliver (chans : List (List Event)) (ev : Event) : List (List Event) :=
  chans.map (fun c => c ++ [ev])

/-- `dummystore.createLink`: compute the hash, store the link under it,
insert the hash into the map of the link's `mapId` (creating the entry if
absent), publish a `SavedLinks` event, return the hash. -/
def DummyStore.createLink (a : DummyStore) (link : Link) : DummyStore × String :=
  let linkHashStr := link.hashStr
  let links := assocInsert a.links linkHashStr link
  let mapID := link.GetMapID
  let maps0 :=
    if (assocFind a.maps mapID).isSome then a.maps
    else assocInsert a.maps mapID []
  let maps := assocInsert maps0 mapID
    (setInsert ((assocFind maps0 mapID).getD []) linkHashStr)
  ({ a with links := links, maps := maps,
            eventChans := deliver a.eventChans (newSavedLinks link) },
   linkHashStr)

/-- `dummystore.CreateLink` (the exported wrapper takes the lock and
delegates). -/
def DummyStore.CreateLink (a : DummyStore) (link : Link) : DummyStore × String :=
  a.createLink link

/-- `dummystore.addEvidence`: fetch the current evidence set (empty when
absent), add the evidence (failing on a duplicate `(backend, provider)`
pair, in which case the state is unchanged), store the new set. -/
def DummyStore.addEvidence (a : DummyStore) (linkHash : String)
    (evidence : Evidence) : Except String DummyStore :=
  let currentEvidences := (assocFind a.evidences linkHash).getD []
  match addToEvidences currentEvidences evidence with
  | Except.error e => Except.error e
  | Except.ok evs =>
    Except.ok { a with evidences := assocInsert a.evidences linkHash evs }

/-- `dummystore.AddEvidence`: delegate to `addEvidence`; on success build
one `SavedEvidences` event and deliver it to every sink. -/
def DummyStore.AddEvidence (a : DummyStore) (linkHash : String)
    (evidence : Evidence) : Except String DummyStore :=
  match a.addEvidence linkHash evidence with
  | Except.error e => Except.error e
  | Except.ok a1 =>
    Except.ok { a1 with
      eventChans := deliver a1.eventChans (newSavedEvidence linkHash evidence) }

/-- `dummystore.getSegment`: absent hash gives `(nil, nil)`; a present
link is materialized with its `linkHash` and an evidence collection that
is empty (never nil) when no evidence is stored. -/
def DummyStore.getSegment (a : DummyStore) (linkHash : String) :
    Except String (Option Segment) :=
  match assocFind a.links linkHash with
  | none => Except.ok none
  | some link =>
    let seg : Segment :=
      { link := link,
        meta := { evidences := (assocFind a.evidences linkHash).getD [],
                  linkHash := linkHash } }
    Except.ok (some seg)

/-- `dummystore.GetSegment` (exported wrapper). -/
def DummyStore.GetSegment (a : DummyStore) (linkHash : String) :
    Except String (Option Segment) :=
  a.getSegment linkHash

/-- `dummystore.GetEvidences`: return the stored evidence set, which is
nil (`none`) when the hash is unknown; the error is always nil. -/
def DummyStore.GetEvidences (a : DummyStore) (linkHash : String) :
    Except String (Option (List Evidence)) :=
  Except.ok (assocFind a.evidences linkHash)

/-- The segment materialization and filtering loop of
`dummystore.findHashesSegments`: fetch each hash's segment, keep the ones
the filter matches, in scan order. -/
def DummyStore.collectSegments (a : DummyStore) (filter : SegmentFilter) :
    List String → Except String (List Segment)
  | [] => Except.ok []
  | h :: rest =>
    match a.getSegment h with
    | Except.error e => Except.error e
    | Except.ok oseg =>
      match a.collectSegments filter rest with
      | Except.error e => Except.error e
      | Except.ok segs =>
        Except.ok
          (match oseg with
           | some seg => if filter.Match (some seg) then seg :: segs else segs
           | none => segs)

/-- Modelled from the spec: segments sort by `(priority desc, linkHash
asc)`, a missing priority sorting last (`cs.SegmentSlice.Less` is not
under `src/`). -/
def segLEb (x y : Segment) : Bool :=
  match x.link.priority, y.link.priority with
  | some p, some q =>
    decide (q < p) || (decide (p = q) && decide (x.meta.linkHash ≤ y.meta.linkHash))
  | some _, none => true
  | none, some _ => false
  | none, none => decide (x.meta.linkHash ≤ y.meta.linkHash)

/-- The sort order as a proposition. -/
def segLE (x y : Segment) : Prop := segLEb x y = true

instance segLE.decidableRel : DecidableRel segLE :=
  fun x y => instDecidableEqBool (segLEb x y) true

instance segLE.isTotal : IsTotal Segment segLE := by
  constructor
  intro x y
  unfold segLE segLEb
  cases hpx : x.link.priority with
  | none =>
    cases hpy : y.link.priority with
    | none =>
      simp only [decide_eq_true_eq]
      exact le_total x.meta.linkHash y.meta.linkHash
    | some q => simp
  | some p =>
    cases hpy : y.link.priority with
    | none => simp
    | some q =>
      simp only [Bool.or_eq_true, Bool.and_eq_true, decide_eq_true_eq]
      rcases lt_trichotomy p q with h | h | h
      · right
        left
        exact h
      · subst h
        rcases le_total x.meta.linkHash y.meta.linkHash with h2 | h2
        · left
          right
          exact ⟨rfl, h2⟩
        · right
          right
          exact ⟨rfl, h2⟩
      · left
        left
        exact h

instance segLE.isTrans : IsTrans Segment segLE := by
  constructor
  intro x y z hxy hyz
  unfold segLE segLEb at hxy hyz ⊢
  cases hpx : x.link.priority with
  | none =>
    cases hpy : y.link.priority with
    | none =>
      cases hpz : z.link.priority with
      | none =>
        simp only [hpx, hpy, hpz, decide_eq_true_eq] at hxy hyz ⊢
        exact le_trans hxy hyz
      | some r =>
        simp only [hpy, hpz] at hyz
        exact absurd hyz (by simp)
    | some q =>
      simp only [hpx, hpy] at hxy
      exact absurd hxy (by simp)
  | some p =>
    cases hpy : y.link.priority with
    | none =>
      cases hpz : z.link.priority with
      | none => simp
      | some r =>
        simp only [hpy, hpz] at hyz
        exact absurd hyz (by simp)
    | some q =>
      cases hpz : z.link.priority with
      | none => simp
      | some r =>
        simp only [hpx, hpy, hpz, Bool.or_eq_true, Bool.and_eq_true,
          decide_eq_true_eq] at hxy hyz ⊢
        rcases hxy with h1 | ⟨he1, hl1⟩
        · rcases hyz with h2 | ⟨he2, hl2⟩
          · left
            exact lt_trans h2 h1
          · left
            rw [← he2]
            exact h1
        · rcases hyz with h2 | ⟨he2, hl2⟩
          · left
            rw [he1]
            exact h2
          · right
            exact ⟨he1.trans he2, le_trans hl1 hl2⟩

/-- Modelled from the spec: `sort.Sort(segments)` produces the unique
`segLE`-sorted arrangement; modelled with insertion sort. -/
def sortSegments (l : List Segment) : List Segment :=
  List.insertionSort segLE l

/-- `dummystore.findHashesSegments`: materialize each hash, keep the
matches, sort, paginate. -/
def DummyStore.findHashesSegments (a : DummyStore) (linkHashes : List String)
    (filter : SegmentFilter) : Except String (List Segment) :=
  match a.collectSegments filter linkHashes with
  | Except.error e => Except.error e
  | Except.ok segments =>
    Except.ok (filter.pagination.paginateSegments (sortSegments segments))

/-- The hash set built by the map-pruning branch of
`dummystore.FindSegments`: the union of the listed maps' hash sets,
skipping unknown map ids. -/
def DummyStore.mapsUnion (a : DummyStore) (mapIDs : List String) : List String :=
  mapIDs.foldl
    (fun acc mapID =>
      match assocFind a.maps mapID with
      | some l => l.foldl (fun acc2 k => setInsert acc2 k) acc
      | none => acc)
    []

/-- `dummystore.FindSegments`: when the filter's `mapIds` is empty or its
`prevLinkHash` is set, scan every stored hash; otherwise union-scan the
listed maps; then materialize, match, sort and paginate. -/
def DummyStore.FindSegments (a : DummyStore) (filter : SegmentFilter) :
    Except String (List Segment) :=
  let linkHashes :=
    if filter.mapIds.isEmpty || filter.prevLinkHash.isSome then
      a.links.map Prod.fst
    else
      a.mapsUnion filter.mapIds
  a.findHashesSegments linkHashes filter

/-- `dummystore.GetMapIDs`: a map id is included iff at least one of its
member hashes resolves to a link matching the filter; sort
lexicographically; paginate. -/
def DummyStore.GetMapIDs (a : DummyStore) (filter : MapFilter) : List String :=
  let mapIDs := a.maps.filterMap
    (fun p =>
      if p.2.any (fun h =>
          match assocFind a.links h with
          | some link => filter.MatchLink link
          | none => false)
      then some p.1 else none)
  filter.pagination.paginateStrings (mapIDs.mergeSort (fun x y => x ≤ y))

/-- `dummystore.createKey`: the `%x` hex rendering of a byte key,
modelled as a deterministic injective rendering of the byte list. -/
def createKey (k : List Nat) : String := toString k

/-- `dummystore.GetValue`. -/
def DummyStore.GetValue (a : DummyStore) (key : List Nat) : Option (List Nat) :=
  assocFind a.values (createKey key)

/-- `dummystore.setValue`. -/
def DummyStore.setValue (a : DummyStore) (key value : List Nat) : DummyStore :=
  { a with values := assocInsert a.values (createKey key) value }

/-- `dummystore.SetValue` (exported wrapper). -/
def DummyStore.SetValue (a : DummyStore) (key value : List Nat) : DummyStore :=
  a.setValue key value

/-! ### Document-backend query translation (package couchstore) -/

/-- A JSON value, the target of the modelled `encoding/json` marshaller. -/
inductive Jso where
  | str : String → Jso
  | int : Int → Jso
  | bool : Bool → Jso
  | arr : List Jso → Jso
  | obj : List (String × Jso) → Jso

/-- `couchstore.PrevLinkHash`: the `\x7b"$exists": …\x7d` /
`\x7b"$eq": …\x7d` selector payload.  `existsQ` models the Go `Exists
*bool` (JSON key `$exists`, omitempty on the pointer) and `equals` the Go
`Equals string` (JSON key `$eq`, omitempty on the string). -/
structure PrevLinkHashSel where
  existsQ : Option Bool
  equals : String
deriving DecidableEq

/-- `couchstore.LinkSelector`: the selector document; `Option` fields
carry Go nil-able pointers that `omitempty` drops from the JSON. -/
structure LinkSelector where
  objectType : String
  prevLinkHash : Option PrevLinkHashSel
  process : String
  mapIds : Option (List String)
  tags : Option (List String)
  linkHash : Option (List String)
deriving DecidableEq

/-- `couchstore.LinkQuery`. -/
structure LinkQuery where
  selector : LinkSelector
  limit : Nat
  skip : Nat
deriving DecidableEq

/-- `encoding/json` on `couchstore.PrevLinkHash`: both fields are
omitempty (`Exists` a nil-able pointer, `Equals` a string omitted when
empty). -/
def marshalPrevLinkHashSel (p : PrevLinkHashSel) : Jso :=
  Jso.obj
    ((match p.existsQ with
      | none => []
      | some b => [("$exists", Jso.bool b)]) ++
     (if p.equals = "" then [] else [("$eq", Jso.str p.equals)]))

/-- `encoding/json` on `couchstore.LinkSelector`: `docType` is always
emitted; every other field carries `omitempty` and is dropped when nil /
empty. -/
def marshalLinkSelector (s : LinkSelector) : Jso :=
  Jso.obj
    ([("docType", Jso.str s.objectType)] ++
     (match s.prevLinkHash with
      | none => []
      | some p => [("link.meta.prevLinkHash", marshalPrevLinkHashSel p)]) ++
     (if s.process = "" then [] else [("link.meta.process", Jso.str s.process)]) ++
     (match s.mapIds with
      | none => []
      | some ids => [("link.meta.mapId", Jso.obj [("$in", Jso.arr (ids.map Jso.str))])]) ++
     (match s.tags with
      | none => []
      | some ts => [("link.meta.tags", Jso.obj [("$all", Jso.arr (ts.map Jso.str))])]) ++
     (match s.linkHash with
      | none => []
      | some hs => [("_id", Jso.obj [("$in", Jso.arr (hs.map Jso.str))])]))

/-- `encoding/json` on `couchstore.LinkQuery`: `limit` and `skip` are
`omitempty` integers, dropped from the JSON when they are `0`. -/
def marshalLinkQuery (q : LinkQuery) : Jso :=
  Jso.obj
    ([("selector", marshalLinkSelector q.selector)] ++
     (if q.limit = 0 then [] else [("limit", Jso.int q.limit)]) ++
     (if q.skip = 0 then [] else [("skip", Jso.int q.skip)]))

/-- `couchstore.NewSegmentQuery`, up to the final `json.Marshal`: build
the `LinkQuery` from the filter.  A nil filter `prevLinkHash` contributes
no selector field; an empty-string one sets `\x7b"$exists": false\x7d`; a
non-empty one sets `\x7b"$eq": value\x7d`. -/
def NewSegmentQuery (filter : SegmentFilter) : LinkQuery :=
  let prevSel : Option PrevLinkHashSel :=
    match filter.prevLinkHash with
    | none => none
    | some p =>
      if p = "" then some { existsQ := some false, equals := "" }
      else some { existsQ := none, equals := p }
  let linkSelector : LinkSelector :=
    { objectType := "link",
      prevLinkHash := prevSel,
      process := filter.process,
      mapIds := if filter.mapIds.length > 0 then some filter.mapIds else none,
      tags := if filter.tags.length > 0 then some filter.tags else none,
      linkHash := if filter.linkHashes.length > 0 then some filter.linkHashes else none }
  { selector := linkSelector,
    limit := filter.pagination.limit,
    skip := filter.pagination.offset }

/-- `couchstore.NewSegmentQuery` composed with the `json.Marshal` model:
the byte payload posted to the document database's `_find` endpoint. -/
def NewSegmentQueryJson (filter : SegmentFilter) : Jso :=
  marshalLinkQuery (NewSegmentQuery filter)

/-- `couchstore.MapQuery`. -/
structure MapQuery where
  process : String
  limit : Nat
  skip : Nat
deriving DecidableEq

/-- `couchstore.NewMapQuery`. -/
def NewMapQuery (filter : MapFilter) : MapQuery :=
  { process := filter.process,
    limit := filter.pagination.limit,
    skip := filter.pagination.offset }

/-- `encoding/json` on `couchstore.MapQuery` (selector always emitted,
`limit` and `skip` omitempty). -/
def marshalMapQuery (q : MapQuery) : Jso :=
  Jso.obj
    ([("selector", Jso.obj
        ([("docType", Jso.str "map")] ++
         (if q.process = "" then [] else [("process", Jso.str q.process)])))] ++
     (if q.limit = 0 then [] else [("limit", Jso.int q.limit)]) ++
     (if q.skip = 0 then [] else [("skip", Jso.int q.skip)]))

/-- The keys of a marshalled JSON object (empty for non-objects). -/
def Jso.keys : Jso → List String
  | Jso.obj fields => fields.map Prod.fst
  | _ => []

/-! ### Agent-client CreateMap ingress validation -/

/-- A reference passed to `CreateMap`: either a full segment or a
`(process, linkHash)` pair.  Modelled from the spec: the agent client's
`SegmentRef` is not under `src/`; only its test
(`TestCreateMapWithBadRefs`) is. -/
structure SegmentRef where
  segment : Option Segment
  process : String
  linkHash : String
deriving DecidableEq

/-- Modelled from the spec: a ref is well formed iff it carries a full
segment or both a process and a linkHash. -/
def SegmentRef.wellFormed (r : SegmentRef) : Bool :=
  r.segment.isSome || (r.process != "" && r.linkHash != "")

/-- Modelled from the spec: `CreateMap(process, refs, title)` validates
every ref at ingress and rejects any other partial shape with the exact
message `missing segment or (process and linkHash)`, without touching the
store; on success it creates the map's root link (the agent generates the
map id; modelled deterministically from the process name). -/
def CreateMap (a : DummyStore) (process : String) (refs : List SegmentRef)
    (title : String) : Except String (DummyStore × Segment) :=
  if refs.all SegmentRef.wellFormed then
    let link : Link :=
      { state := title, mapId := process ++ "-map", process := process,
        prevLinkHash := none, tags := [], priority := none }
    let r := a.createLink link
    Except.ok (r.1,
      { link := link, meta := { evidences := [], linkHash := r.2 } })
  else
    Except.error "missing segment or (process and linkHash)"

/-! ### Concrete fixtures for instantiations -/

/-- The root link of the end-to-end scenarios. -/
def sampleLink : Link :=
  { state := "s", mapId := "m1", process := "p", prevLinkHash := none,
    tags := [], priority := none }

/-- A sample evidence. -/
def sampleEvidence : Evidence := { backend := "b", provider := "pr", proofData := "x" }

/-- A second evidence with the same `(backend, provider)` pair. -/
def sampleEvidence2 : Evidence := { backend := "b", provider := "pr", proofData := "y" }

/-- A freshly constructed reference store. -/
def emptyStore : DummyStore := DummyStore.new { version := "v", commit := "c" }

/-- The store after creating `sampleLink`. -/
def oneLinkStore : DummyStore := (emptyStore.CreateLink sampleLink).1

/-- The one-link store with one registered (empty) event sink. -/
def sinkStore : DummyStore := oneLinkStore.AddStoreEventChannel []

/-- The store reached from `sinkStore` by an accepted AddEvidence for
`sampleLink`. -/
def evStore : DummyStore :=
  { sinkStore with
    evidences := assocInsert sinkStore.evidences sampleLink.hashStr [sampleEvidence],
    eventChans := deliver sinkStore.eventChans
      (newSavedEvidence sampleLink.hashStr sampleEvidence) }

/-- The all-unset segment filter with the given limit. -/
def trivialFilter (limit : Nat) : SegmentFilter :=
  { pagination := { offset := 0, limit := limit }, mapIds := [], process := "",
    prevLinkHash := none, tags := [], linkHashes := [] }

/-- A filter restricted to map `m1`. -/
def mapFilterM1 : SegmentFilter :=
  { pagination := { offset := 0, limit := 10 }, mapIds := ["m1"], process := "",
    prevLinkHash := none, tags := [], linkHashes := [] }

/-- A filter constraining only `prevLinkHash`. -/
def prevOnlyFilter (p : Option String) : SegmentFilter :=
  { pagination := { offset := 0, limit := 10 }, mapIds := [], process := "",
    prevLinkHash := p, tags := [], linkHashes := [] }

/-- The per-hash step of `findHashesSegments` as a partial map: the
materialized segment of a hash if its link exists and the filter matches
it. -/
def matchedOf (a : DummyStore) (f : SegmentFilter) (h : String) : Option Segment :=
  match assocFind a.links h with
  | none => none
  | some link =>
    let seg : Segment :=
      { link := link,
        meta := { evidences := (assocFind a.evidences h).getD [], linkHash := h } }
    if f.Match (some seg) then some seg else none

/-! ### Well-formedness of a store state -/

/-- The store invariant relating the `links` and `maps` mappings: link
hashes are unique keys, and a hash belongs to the set of a map id exactly
when a stored link with that map id carries it. -/
structure DummyStore.WF (a : DummyStore) : Prop where
  linksNodup : (a.links.map Prod.fst).Nodup
  mapsSpec : ∀ m h, h ∈ ((assocFind a.maps m).getD []) ↔
      ∃ l, assocFind a.links h = some l ∧ l.mapId = m

/-! ### Lemmas about the association-list and set helpers -/

theorem assocFind_insert_self {α : Type} (l : List (String × α)) (k : String) (v : α) :
    assocFind (assocInsert l k v) k = some v := by
  induction l with
  | nil => simp [assocInsert, assocFind]
  | cons p rest ih =>
    by_cases hk : p.1 = k
    · simp [assocInsert, hk, assocFind]
    · simp [assocInsert, hk, assocFind, ih]

theorem assocInsert_of_find_eq {α : Type} {l : List (String × α)} {k : String} {v : α}
    (h : assocFind l k = some v) : assocInsert l k v = l := by
  induction l with
  | nil => simp [assocFind] at h
  | cons p rest ih =>
    obtain ⟨k1, v1⟩ := p
    by_cases hk : k1 = k
    · subst hk
      simp [assocFind] at h
      simp [assocInsert, h]
    · simp [assocFind, hk] at h
      simp [assocInsert, hk, ih h]

theorem mem_keys_iff_isSome {α : Type} (l : List (String × α)) (k : String) :
    k ∈ l.map Prod.fst ↔ (assocFind l k).isSome := by
  induction l with
  | nil => simp [assocFind]
  | cons p rest ih =>
    by_cases hk : p.1 = k
    · simp [assocFind, hk]
    · simp [assocFind, hk, ih, Ne.symm hk]

theorem mem_setInsert {s : List String} {h x : String} :
    x ∈ setInsert s h ↔ x ∈ s ∨ x = h := by
  unfold setInsert
  by_cases hm : h ∈ s
  · simp only [if_pos hm]
    constructor
    · exact Or.inl
    · rintro (hx | rfl)
      · exact hx
      · exact hm
  · simp [if_neg hm]

theorem setInsert_of_mem {s : List String} {h : String} (hm : h ∈ s) :
    setInsert s h = s := by
  simp [setInsert, hm]

theorem mem_setInsert_self (s : List String) (h : String) : h ∈ setInsert s h := by
  simp [mem_setInsert]

theorem setInsert_nodup {s : List String} (hs : s.Nodup) (h : String) :
    (setInsert s h).Nodup := by
  unfold setInsert
  by_cases hm : h ∈ s
  · simpa [if_pos hm]
  · simp only [if_neg hm]
    exact List.Nodup.append hs (List.nodup_singleton h) (by simpa using hm)

/-! ### Unfolding lemmas for createLink -/

theorem createLink_snd (a : DummyStore) (l : Link) :
    (a.CreateLink l).2 = l.hashStr := rfl

theorem createLink_fst_links (a : DummyStore) (l : Link) :
    (a.CreateLink l).1.links = assocInsert a.links l.hashStr l := rfl

theorem createLink_fst_evidences (a : DummyStore) (l : Link) :
    (a.CreateLink l).1.evidences = a.evidences := rfl

theorem createLink_fst_values (a : DummyStore) (l : Link) :
    (a.CreateLink l).1.values = a.values := rfl

theorem createLink_fst_eventChans (a : DummyStore) (l : Link) :
    (a.CreateLink l).1.eventChans = deliver a.eventChans (newSavedLinks l) := rfl

theorem createLink_maps0_getD (a : DummyStore) (m : String) :
    (assocFind (if (assocFind a.maps m).isSome then a.maps
                else assocInsert a.maps m []) m).getD []
      = (assocFind a.maps m).getD [] := by
  by_cases hx : (assocFind a.maps m).isSome
  · simp [if_pos hx]
  · simp only [if_neg hx]
    rw [assocFind_insert_self]
    rw [Option.not_isSome_iff_eq_none] at hx
    simp [hx]

theorem createLink_fst_maps (a : DummyStore) (l : Link) :
    (a.CreateLink l).1.maps =
      assocInsert (if (assocFind a.maps l.mapId).isSome then a.maps
                   else assocInsert a.maps l.mapId [])
        l.mapId (setInsert ((assocFind a.maps l.mapId).getD []) l.hashStr) := by
  show assocInsert _ l.mapId
      (setInsert ((assocFind (if (assocFind a.maps l.mapId).isSome then a.maps
                              else assocInsert a.maps l.mapId []) l.mapId).getD [])
        l.hashStr) = _
  rw [createLink_maps0_getD]
  rfl

theorem createLink_maps_find (a : DummyStore) (l : Link) :
    assocFind (a.CreateLink l).1.maps l.mapId =
      some (setInsert ((assocFind a.maps l.mapId).getD []) l.hashStr) := by
  rw [createLink_fst_maps, assocFind_insert_self]

/-! ### Claim theorems -/

/-- C1: CreateLink on the reference store computes the link hash, stores
the link under it, inserts the hash into the map of the link's `mapId`
(creating the entry when absent — in particular a previously unknown
`mapId` gets a map holding exactly this hash), publishes one `SavedLinks`
event to every sink, and returns the hash. -/
theorem createLink_spec (a : DummyStore) (l : Link) :
    (a.CreateLink l).2 = l.hashStr ∧
    assocFind (a.CreateLink l).1.links l.hashStr = some l ∧
    assocFind (a.CreateLink l).1.maps l.mapId =
      some (setInsert ((assocFind a.maps l.mapId).getD []) l.hashStr) ∧
    (a.CreateLink l).1.eventChans = deliver a.eventChans (newSavedLinks l) ∧
    (assocFind a.maps l.mapId = none →
      assocFind (a.CreateLink l).1.maps l.mapId = some [l.hashStr]) := by
  refine ⟨rfl, ?_, createLink_maps_find a l, rfl, ?_⟩
  · rw [createLink_fst_links, assocFind_insert_self]
  · intro hnone
    rw [createLink_maps_find, hnone]
    simp [setInsert]

/-- Closed instantiation of `createLink_spec` at a concrete store and
link. -/
theorem createLink_spec_witness :
    assocFind emptyStore.maps sampleLink.mapId = none ∧
    assocFind (emptyStore.CreateLink sampleLink).1.maps sampleLink.mapId =
      some [sampleLink.hashStr] :=
  ⟨rfl, (createLink_spec emptyStore sampleLink).2.2.2.2 rfl⟩

/-- C5: for a link hash absent from the store, GetSegment returns a nil
segment with a nil error, and GetEvidences likewise returns nil with no
error. -/
theorem get_absent_returns_nil (a : DummyStore) (h : String)
    (hl : assocFind a.links h = none) (he : assocFind a.evidences h = none) :
    a.GetSegment h = Except.ok none ∧ a.GetEvidences h = Except.ok none := by
  constructor
  · unfold DummyStore.GetSegment DummyStore.getSegment
    rw [hl]
  · unfold DummyStore.GetEvidences
    rw [he]

/-- Closed instantiation of `get_absent_returns_nil` on a store that does
not contain the queried hash. -/
theorem get_absent_returns_nil_witness :
    oneLinkStore.GetSegment "deadbeef" = Except.ok none ∧
    oneLinkStore.GetEvidences "deadbeef" = Except.ok none :=
  get_absent_returns_nil oneLinkStore "deadbeef" (by decide) (by decide)

/-- C7: CreateLink is idempotent on an exact duplicate: a second call
with the same link returns the same hash and leaves the `links`, `maps`,
`evidences` and `values` components equal to the state after the first
call. -/
theorem createLink_idempotent (a : DummyStore) (l : Link) :
    ((a.CreateLink l).1.CreateLink l).2 = (a.CreateLink l).2 ∧
    ((a.CreateLink l).1.CreateLink l).1.links = (a.CreateLink l).1.links ∧
    ((a.CreateLink l).1.CreateLink l).1.maps = (a.CreateLink l).1.maps ∧
    ((a.CreateLink l).1.CreateLink l).1.evidences = (a.CreateLink l).1.evidences ∧
    ((a.CreateLink l).1.CreateLink l).1.values = (a.CreateLink l).1.values := by
  refine ⟨rfl, ?_, ?_, rfl, rfl⟩
  · rw [createLink_fst_links ((a.CreateLink l).1) l, createLink_fst_links a l]
    exact assocInsert_of_find_eq (assocFind_insert_self _ _ _)
  · have hfind := createLink_maps_find a l
    rw [createLink_fst_maps ((a.CreateLink l).1) l]
    rw [hfind]
    simp only [Option.isSome_some, if_true, Option.getD_some]
    rw [setInsert_of_mem (mem_setInsert_self _ _)]
    exact assocInsert_of_find_eq hfind

/-- C8: every accepted write delivers exactly one event to each
registered sink, appended in registration order: CreateLink appends one
`SavedLinks` event to every sink, an accepted AddEvidence appends one
`SavedEvidences` event to every sink, and sink registration appends to
the ordered sink list. -/
theorem write_event_delivery (a a1 : DummyStore) (l : Link) (h : String)
    (e : Evidence) (c : List Event) :
    (a.CreateLink l).1.eventChans =
      a.eventChans.map (fun s => s ++ [newSavedLinks l]) ∧
    (a.AddEvidence h e = Except.ok a1 →
      a1.eventChans = a.eventChans.map (fun s => s ++ [newSavedEvidence h e])) ∧
    (a.AddStoreEventChannel c).eventChans = a.eventChans ++ [c] := by
  refine ⟨rfl, ?_, rfl⟩
  intro hok
  unfold DummyStore.AddEvidence DummyStore.addEvidence at hok
  dsimp only at hok
  cases haev : addToEvidences ((assocFind a.evidences h).getD []) e with
  | error msg => rw [haev] at hok; simp at hok
  | ok evs =>
    rw [haev] at hok
    simp only [Except.ok.injEq] at hok
    rw [← hok]
    rfl

/-- Closed instantiation of `write_event_delivery`: an accepted
AddEvidence on a store with one registered sink appends exactly one
`SavedEvidences` event to it. -/
theorem write_event_delivery_witness :
    sinkStore.AddEvidence sampleLink.hashStr sampleEvidence = Except.ok evStore ∧
    evStore.eventChans = sinkStore.eventChans.map
      (fun s => s ++ [newSavedEvidence sampleLink.hashStr sampleEvidence]) :=
  ⟨rfl,
   (write_event_delivery sinkStore evStore sampleLink sampleLink.hashStr
      sampleEvidence []).2.1 rfl⟩

/-- C6: after an accepted AddEvidence, a second AddEvidence for the same
`(backend, provider)` pair at the same hash returns an error, the stored
evidence set is the one left by the first call, and it holds exactly one
evidence for that pair. -/
theorem addEvidence_duplicate_conflict (a a1 : DummyStore) (h : String)
    (e e2 : Evidence) (hb : e2.backend = e.backend) (hp : e2.provider = e.provider)
    (hok : a.AddEvidence h e = Except.ok a1) :
    (∃ msg, a1.AddEvidence h e2 = Except.error msg) ∧
    assocFind a1.evidences h = some (((assocFind a.evidences h).getD []) ++ [e]) ∧
    (((assocFind a1.evidences h).getD []).filter
        (fun x => x.backend == e.backend && x.provider == e.provider)).length = 1 := by
  unfold DummyStore.AddEvidence DummyStore.addEvidence at hok
  dsimp only at hok
  cases haev : addToEvidences ((assocFind a.evidences h).getD []) e with
  | error msg => rw [haev] at hok; simp at hok
  | ok evs =>
    rw [haev] at hok
    simp only [Except.ok.injEq] at hok
    unfold addToEvidences at haev
    cases hany : ((assocFind a.evidences h).getD []).any
        (fun x => x.backend == e.backend && x.provider == e.provider) with
    | true => rw [if_pos hany] at haev; simp at haev
    | false =>
      rw [if_neg (by simp [hany])] at haev
      simp only [Except.ok.injEq] at haev
      have hev1 : assocFind a1.evidences h =
          some (((assocFind a.evidences h).getD []) ++ [e]) := by
        rw [← hok, haev]
        exact assocFind_insert_self _ _ _
      refine ⟨?_, hev1, ?_⟩
      · have hcond : (((assocFind a.evidences h).getD [] ++ [e]).any
            (fun x => x.backend == e2.backend && x.provider == e2.provider)) = true := by
          apply List.any_eq_true.mpr
          refine ⟨e, by simp, ?_⟩
          rw [hb, hp]
          simp
        refine ⟨"evidence already exists for this backend and provider", ?_⟩
        unfold DummyStore.AddEvidence DummyStore.addEvidence
        dsimp only
        rw [hev1]
        dsimp only [Option.getD_some]
        unfold addToEvidences
        rw [if_pos hcond]
      · rw [hev1]
        simp only [Option.getD_some, List.filter_append]
        rw [List.filter_eq_nil_iff.mpr, List.nil_append]
        · simp
        · intro x hx
          have := List.any_eq_false.mp hany x hx
          simpa using this

/-- Closed instantiation of `addEvidence_duplicate_conflict`: the second
insertion for the pair `(b, pr)` fails and exactly one such evidence is
stored. -/
theorem addEvidence_duplicate_conflict_witness :
    sinkStore.AddEvidence sampleLink.hashStr sampleEvidence = Except.ok evStore ∧
    (∃ msg, evStore.AddEvidence sampleLink.hashStr sampleEvidence2 = Except.error msg) :=
  ⟨rfl,
   (addEvidence_duplicate_conflict sinkStore evStore sampleLink.hashStr
      sampleEvidence sampleEvidence2 rfl rfl rfl).1⟩

/-- C9: a CreateMap request with a ref that is neither a full segment
nor a `(process, linkHash)` pair is rejected with the exact message
`missing segment or (process and linkHash)`, without returning a segment
or changing any state. -/
theorem createMap_bad_refs (a : DummyStore) (process title : String)
    (refs : List SegmentRef) (r : SegmentRef) (hr : r ∈ refs)
    (hbad : r.wellFormed = false) :
    CreateMap a process refs title =
      Except.error "missing segment or (process and linkHash)" := by
  unfold CreateMap
  rw [if_neg]
  intro hall
  have := List.all_eq_true.mp hall r hr
  rw [hbad] at this
  exact Bool.false_ne_true this

/-- Closed instantiation of `createMap_bad_refs` on the test's input: a
ref carrying only a process. -/
theorem createMap_bad_refs_witness :
    ({ segment := none, process := "wrong", linkHash := "" } : SegmentRef) ∈
      [({ segment := none, process := "wrong", linkHash := "" } : SegmentRef)] ∧
    CreateMap emptyStore "test"
        [{ segment := none, process := "wrong", linkHash := "" }] "wrongref" =
      Except.error "missing segment or (process and linkHash)" :=
  ⟨List.mem_singleton.mpr rfl,
   createMap_bad_refs emptyStore "test" "wrongref" _
     { segment := none, process := "wrong", linkHash := "" }
     (List.mem_singleton.mpr rfl) rfl⟩

/-- C2: evaluation of the code at the failing input limit = 0.  The
document-backend translation (NewSegmentQuery with json omitempty on
Limit) drops the limit field from the generated query, so the query sent
to the document database carries no limit at all, while the reference
store returns the empty result for the same filter, as the claim
requires of every backend. -/
theorem couch_limit_zero_dropped :
    "limit" ∉ (NewSegmentQueryJson (trivialFilter 0)).keys ∧
    (NewSegmentQuery (trivialFilter 0)).limit = 0 ∧
    oneLinkStore.FindSegments (trivialFilter 0) = Except.ok [] := by
  refine ⟨?_, rfl, rfl⟩
  decide

/-- C3 counterexample: a filter whose prevLinkHash is absent (nil) does
NOT translate to a \x7b"$exists": false\x7d selector: the generated
selector carries no prevLinkHash entry at all. -/
theorem prevLinkHash_absent_no_selector :
    (NewSegmentQuery (trivialFilter 10)).selector.prevLinkHash = none ∧
    "link.meta.prevLinkHash" ∉
      (marshalLinkSelector (NewSegmentQuery (trivialFilter 10)).selector).keys := by
  refine ⟨rfl, ?_⟩
  decide

theorem prevOnly_MatchLink (p : Option String) (l : Link) :
    (prevOnlyFilter p).MatchLink l =
      (match p with
       | none => true
       | some q => q == (l.prevLinkHash.getD "")) := by
  unfold prevOnlyFilter SegmentFilter.MatchLink
  cases p <;> simp

/-- C3 amended: in NewSegmentQuery an absent (nil) prevLinkHash
contributes no selector entry, an empty-string pointer translates to
\x7b"$exists": false\x7d, and a non-empty pointer translates to
\x7b"$eq": value\x7d, consistently with the filter semantics that an
absent pointer imposes no constraint, an empty-string pointer matches
only links whose prevLinkHash is unset, and a non-empty pointer is an
exact match. -/
theorem prevLinkHash_translation (f : SegmentFilter) (v : String) (l : Link)
    (hv : v ≠ "") (hl : l.prevLinkHash ≠ some "") :
    (f.prevLinkHash = none → (NewSegmentQuery f).selector.prevLinkHash = none) ∧
    (f.prevLinkHash = some "" →
      (NewSegmentQuery f).selector.prevLinkHash =
          some { existsQ := some false, equals := "" } ∧
      marshalPrevLinkHashSel { existsQ := some false, equals := "" } =
          Jso.obj [("$exists", Jso.bool false)]) ∧
    (f.prevLinkHash = some v →
      (NewSegmentQuery f).selector.prevLinkHash =
          some { existsQ := none, equals := v } ∧
      marshalPrevLinkHashSel { existsQ := none, equals := v } =
          Jso.obj [("$eq", Jso.str v)]) ∧
    ((prevOnlyFilter none).MatchLink l = true) ∧
    ((prevOnlyFilter (some "")).MatchLink l = true ↔ l.prevLinkHash = none) ∧
    ((prevOnlyFilter (some v)).MatchLink l = true ↔ l.prevLinkHash = some v) := by
  refine ⟨?_, ?_, ?_, ?_, ?_, ?_⟩
  · intro hn
    unfold NewSegmentQuery
    rw [hn]
  · intro hn
    constructor
    · unfold NewSegmentQuery
      rw [hn]
      rfl
    · rfl
  · intro hn
    constructor
    · unfold NewSegmentQuery
      rw [hn]
      simp [hv]
    · unfold marshalPrevLinkHashSel
      rw [if_neg hv]
      rfl
  · rw [prevOnly_MatchLink]
  · rw [prevOnly_MatchLink]
    cases hc : l.prevLinkHash with
    | none => simp
    | some s =>
      have hs : s ≠ "" := fun hcontra => hl (by rw [hc, hcontra])
      simp only [Option.getD_some, beq_iff_eq]
      constructor
      · intro h2
        exact absurd h2.symm hs
      · intro h2
        exact absurd h2 (by simp)
  · rw [prevOnly_MatchLink]
    cases hc : l.prevLinkHash with
    | none =>
      simp only [Option.getD_none, beq_iff_eq]
      constructor
      · intro h2
        exact absurd h2 hv
      · intro h2
        exact absurd h2 (by simp)
    | some s =>
      simp only [Option.getD_some, beq_iff_eq, Option.some.injEq]
      exact eq_comm

/-- Closed instantiation of `prevLinkHash_translation` at a concrete
filter, value and link. -/
theorem prevLinkHash_translation_witness :
    ("x" : String) ≠ "" ∧ sampleLink.prevLinkHash ≠ some "" ∧
    ((prevOnlyFilter (some "x")).MatchLink sampleLink = true ↔
      sampleLink.prevLinkHash = some "x") :=
  ⟨by decide, by decide,
   (prevLinkHash_translation (prevOnlyFilter (some "x")) "x" sampleLink
      (by decide) (by decide)).2.2.2.2.2⟩

/-- C10: for a stored link with no stored evidence, GetSegment returns a
segment whose evidence collection is empty (never nil), while
GetEvidences returns nil for the same hash: the two read paths represent
an empty evidence set differently. -/
theorem read_paths_empty_evidences (a : DummyStore) (h : String) (l : Link)
    (hl : assocFind a.links h = some l) (he : assocFind a.evidences h = none) :
    a.GetSegment h =
      Except.ok (some { link := l, meta := { evidences := [], linkHash := h } }) ∧
    a.GetEvidences h = Except.ok none := by
  constructor
  · unfold DummyStore.GetSegment DummyStore.getSegment
    rw [hl]
    simp [he]
  · unfold DummyStore.GetEvidences
    rw [he]

/-- Closed instantiation of `read_paths_empty_evidences` on the one-link
store, whose single link has no evidence. -/
theorem read_paths_empty_evidences_witness :
    oneLinkStore.GetSegment sampleLink.hashStr =
      Except.ok (some { link := sampleLink,
                        meta := { evidences := [], linkHash := sampleLink.hashStr } }) ∧
    oneLinkStore.GetEvidences sampleLink.hashStr = Except.ok none :=
  read_paths_empty_evidences oneLinkStore sampleLink.hashStr sampleLink
    (by decide) (by decide)

/-! ### Lemmas for the FindSegments scan equivalence -/

theorem collectSegments_eq (a : DummyStore) (f : SegmentFilter) :
    ∀ hs : List String,
      a.collectSegments f hs = Except.ok (hs.filterMap (matchedOf a f))
  | [] => rfl
  | h :: rest => by
    have ih := collectSegments_eq a f rest
    unfold DummyStore.collectSegments
    rw [ih]
    unfold DummyStore.getSegment
    cases hfind : assocFind a.links h with
    | none =>
      dsimp only
      rw [List.filterMap_cons]
      unfold matchedOf
      rw [hfind]
    | some link =>
      dsimp only
      rw [List.filterMap_cons]
      unfold matchedOf
      rw [hfind]
      dsimp only
      by_cases hmt : f.Match (some
          { link := link,
            meta := { evidences := (assocFind a.evidences h).getD [],
                      linkHash := h } }) = true
      · rw [if_pos hmt, if_pos hmt]
      · rw [if_neg hmt, if_neg hmt]

theorem matchedOf_some_elim {a : DummyStore} {f : SegmentFilter} {h : String}
    {s : Segment} (hm : matchedOf a f h = some s) :
    assocFind a.links h = some s.link ∧ s.meta.linkHash = h ∧
      f.Match (some s) = true := by
  unfold matchedOf at hm
  cases hfind : assocFind a.links h with
  | none => rw [hfind] at hm; simp at hm
  | some link =>
    rw [hfind] at hm
    dsimp only at hm
    by_cases hmt : f.Match (some
        { link := link,
          meta := { evidences := (assocFind a.evidences h).getD [],
                    linkHash := h } }) = true
    · rw [if_pos hmt] at hm
      injection hm with he
      subst he
      exact ⟨rfl, rfl, hmt⟩
    · rw [if_neg hmt] at hm
      simp at hm

theorem filterMap_eq_filter_filterMap {α β : Type} (g : α → Option β) :
    ∀ l : List α, l.filterMap g = (l.filter (fun x => (g x).isSome)).filterMap g
  | [] => rfl
  | x :: xs => by
    have ih := filterMap_eq_filter_filterMap g xs
    cases hg : g x with
    | none => simp [List.filterMap_cons, List.filter_cons, hg, ih]
    | some b => simp [List.filterMap_cons, List.filter_cons, hg, ih]

theorem matched_map_linkHash_sublist (a : DummyStore) (f : SegmentFilter) :
    ∀ hs : List String,
      List.Sublist ((hs.filterMap (matchedOf a f)).map (fun s => s.meta.linkHash)) hs
  | [] => List.Sublist.refl []
  | h :: rest => by
    have ih := matched_map_linkHash_sublist a f rest
    cases hm : matchedOf a f h with
    | none =>
      rw [List.filterMap_cons, hm]
      exact ih.cons h
    | some s =>
      rw [List.filterMap_cons, hm, List.map_cons, (matchedOf_some_elim hm).2.1]
      exact ih.cons₂ h

theorem mem_foldl_setInsert (x : String) :
    ∀ (l : List String) (acc : List String),
      (x ∈ l.foldl (fun a2 k => setInsert a2 k) acc ↔ x ∈ acc ∨ x ∈ l)
  | [], acc => by simp
  | y :: ys, acc => by
    rw [List.foldl_cons, mem_foldl_setInsert x ys (setInsert acc y),
      mem_setInsert, List.mem_cons]
    tauto

theorem foldl_setInsert_nodup :
    ∀ (l : List String) (acc : List String), acc.Nodup →
      (l.foldl (fun a2 k => setInsert a2 k) acc).Nodup
  | [], acc, hacc => hacc
  | y :: ys, acc, hacc =>
    foldl_setInsert_nodup ys (setInsert acc y) (setInsert_nodup hacc y)

theorem mem_mapsUnion_aux (a : DummyStore) (x : String) :
    ∀ (ids : List String) (acc : List String),
      (x ∈ ids.foldl
          (fun acc2 mapID =>
            match assocFind a.maps mapID with
            | some l => l.foldl (fun a2 k => setInsert a2 k) acc2
            | none => acc2) acc ↔
        x ∈ acc ∨ ∃ m ∈ ids, x ∈ (assocFind a.maps m).getD [])
  | [], acc => by simp
  | y :: ys, acc => by
    rw [List.foldl_cons]
    cases hfind : assocFind a.maps y with
    | none =>
      rw [mem_mapsUnion_aux a x ys acc]
      constructor
      · rintro (hx | ⟨m, hm, hx⟩)
        · exact Or.inl hx
        · exact Or.inr ⟨m, List.mem_cons_of_mem y hm, hx⟩
      · rintro (hx | ⟨m, hm, hx⟩)
        · exact Or.inl hx
        · rcases List.mem_cons.mp hm with rfl | hm2
          · rw [hfind] at hx
            simp at hx
          · exact Or.inr ⟨m, hm2, hx⟩
    | some l =>
      rw [mem_mapsUnion_aux a x ys _, mem_foldl_setInsert]
      constructor
      · rintro ((hx | hx) | ⟨m, hm, hx⟩)
        · exact Or.inl hx
        · exact Or.inr ⟨y, List.mem_cons_self y ys, by rw [hfind]; exact hx⟩
        · exact Or.inr ⟨m, List.mem_cons_of_mem y hm, hx⟩
      · rintro (hx | ⟨m, hm, hx⟩)
        · exact Or.inl (Or.inl hx)
        · rcases List.mem_cons.mp hm with rfl | hm2
          · rw [hfind] at hx
            exact Or.inl (Or.inr hx)
          · exact Or.inr ⟨m, hm2, hx⟩

theorem mem_mapsUnion (a : DummyStore) (ids : List String) (x : String) :
    x ∈ a.mapsUnion ids ↔ ∃ m ∈ ids, x ∈ (assocFind a.maps m).getD [] := by
  unfold DummyStore.mapsUnion
  rw [mem_mapsUnion_aux]
  simp

theorem mapsUnion_nodup_aux (a : DummyStore) :
    ∀ (ids : List String) (acc : List String), acc.Nodup →
      (ids.foldl
        (fun acc2 mapID =>
          match assocFind a.maps mapID with
          | some l => l.foldl (fun a2 k => setInsert a2 k) acc2
          | none => acc2) acc).Nodup
  | [], _, hacc => hacc
  | y :: ys, acc, hacc => by
    rw [List.foldl_cons]
    cases hfind : assocFind a.maps y with
    | none => exact mapsUnion_nodup_aux a ys acc hacc
    | some l => exact mapsUnion_nodup_aux a ys _ (foldl_setInsert_nodup l acc hacc)

theorem mapsUnion_nodup (a : DummyStore) (ids : List String) :
    (a.mapsUnion ids).Nodup := by
  unfold DummyStore.mapsUnion
  exact mapsUnion_nodup_aux a ids [] List.nodup_nil

theorem Match_mapId_mem {f : SegmentFilter} {s : Segment}
    (hm : f.Match (some s) = true) (hne : f.mapIds.isEmpty = false) :
    s.link.mapId ∈ f.mapIds := by
  unfold SegmentFilter.Match SegmentFilter.MatchLink at hm
  simp only [Bool.and_eq_true, Bool.or_eq_true] at hm
  rcases hm.2.1.1.1 with he | hc
  · rw [hne] at he
    exact absurd he (by simp)
  · simpa using hc

theorem eq_of_perm_of_sorted_antisymmOn {α : Type} {r : α → α → Prop} :
    ∀ {l1 l2 : List α}, l1.Perm l2 → l1.Sorted r → l2.Sorted r →
      (∀ x ∈ l1, ∀ y ∈ l1, r x y → r y x → x = y) → l1 = l2
  | [], l2, p, _, _, _ => p.nil_eq
  | x :: t1, l2, p, s1, s2, anti => by
    cases l2 with
    | nil =>
      exact absurd p.symm.nil_eq (by simp)
    | cons y t2 =>
      have hxy : x = y := by
        have hyl1 : y ∈ x :: t1 := p.symm.subset (List.mem_cons_self y t2)
        have hxl2 : x ∈ y :: t2 := p.subset (List.mem_cons_self x t1)
        rcases List.mem_cons.mp hyl1 with h1 | h1
        · exact h1.symm
        · rcases List.mem_cons.mp hxl2 with h2 | h2
          · exact h2
          · have rxy : r x y := List.rel_of_sorted_cons s1 y h1
            have ryx : r y x := List.rel_of_sorted_cons s2 x h2
            exact anti x (List.mem_cons_self x t1) y hyl1 rxy ryx
      subst hxy
      have p2 : t1.Perm t2 := p.cons_inv
      have anti2 : ∀ a ∈ t1, ∀ b ∈ t1, r a b → r b a → a = b := fun a ha b hb =>
        anti a (List.mem_cons_of_mem x ha) b (List.mem_cons_of_mem x hb)
      rw [eq_of_perm_of_sorted_antisymmOn p2 s1.of_cons s2.of_cons anti2]

theorem segLE_antisymm_on {l : List Segment}
    (hnd : (l.map (fun s => s.meta.linkHash)).Nodup) :
    ∀ x ∈ l, ∀ y ∈ l, segLE x y → segLE y x → x = y := by
  intro x hx y hy hxy hyx
  have hkey : x.meta.linkHash = y.meta.linkHash := by
    unfold segLE segLEb at hxy hyx
    cases hpx : x.link.priority with
    | none =>
      cases hpy : y.link.priority with
      | none =>
        rw [hpx, hpy] at hxy hyx
        simp only [decide_eq_true_eq] at hxy hyx
        exact le_antisymm hxy hyx
      | some q =>
        rw [hpx, hpy] at hxy
        exact absurd hxy (by simp)
    | some p =>
      cases hpy : y.link.priority with
      | none =>
        rw [hpx, hpy] at hyx
        exact absurd hyx (by simp)
      | some q =>
        rw [hpx, hpy] at hxy hyx
        simp only [Bool.or_eq_true, Bool.and_eq_true, decide_eq_true_eq] at hxy hyx
        rcases hxy with h1 | ⟨he1, hl1⟩
        · rcases hyx with h2 | ⟨he2, hl2⟩
          · exact absurd h1 (lt_asymm h2)
          · exact absurd h1 (by rw [he2]; exact lt_irrefl p)
        · rcases hyx with h2 | ⟨he2, hl2⟩
          · exact absurd h2 (by rw [he1]; exact lt_irrefl q)
          · exact le_antisymm hl1 hl2
  exact List.inj_on_of_nodup_map hnd hx hy hkey

theorem sortSegments_eq_of_perm {l1 l2 : List Segment} (p : l1.Perm l2)
    (hnd : (l1.map (fun s => s.meta.linkHash)).Nodup) :
    sortSegments l1 = sortSegments l2 := by
  unfold sortSegments
  apply eq_of_perm_of_sorted_antisymmOn
  · exact (List.perm_insertionSort segLE l1).trans
      (p.trans (List.perm_insertionSort segLE l2).symm)
  · exact List.sorted_insertionSort segLE l1
  · exact List.sorted_insertionSort segLE l2
  · intro x hx y hy
    exact segLE_antisymm_on hnd x ((List.mem_insertionSort segLE).mp hx)
      y ((List.mem_insertionSort segLE).mp hy)

theorem matched_filterMap_perm (a : DummyStore) (f : SegmentFilter)
    (hwf : a.WF) (hne : f.mapIds.isEmpty = false) :
    ((a.mapsUnion f.mapIds).filterMap (matchedOf a f)).Perm
      ((a.links.map Prod.fst).filterMap (matchedOf a f)) := by
  rw [filterMap_eq_filter_filterMap (matchedOf a f) (a.mapsUnion f.mapIds),
    filterMap_eq_filter_filterMap (matchedOf a f) (a.links.map Prod.fst)]
  apply List.Perm.filterMap
  apply List.perm_of_nodup_nodup_toFinset_eq
  · exact (mapsUnion_nodup a f.mapIds).filter _
  · exact hwf.linksNodup.filter _
  · apply Finset.ext
    intro x
    simp only [List.mem_toFinset, List.mem_filter]
    constructor
    · rintro ⟨hmem, hsome⟩
      refine ⟨?_, hsome⟩
      obtain ⟨s, hs⟩ := Option.isSome_iff_exists.mp (by simpa using hsome)
      have hfind := (matchedOf_some_elim hs).1
      rw [mem_keys_iff_isSome, hfind]
      rfl
    · rintro ⟨hmem, hsome⟩
      refine ⟨?_, hsome⟩
      obtain ⟨s, hs⟩ := Option.isSome_iff_exists.mp (by simpa using hsome)
      obtain ⟨hfind, _, hmatch⟩ := matchedOf_some_elim hs
      have hmap : s.link.mapId ∈ f.mapIds := Match_mapId_mem hmatch hne
      rw [mem_mapsUnion]
      exact ⟨s.link.mapId, hmap, (hwf.mapsSpec s.link.mapId x).mpr ⟨s.link, hfind, rfl⟩⟩

theorem oneLinkStore_WF : oneLinkStore.WF := by
  have hmaps : oneLinkStore.maps = [("m1", ["h(s|m1|p|-||-)"])] := by decide
  have hlinks : oneLinkStore.links = [("h(s|m1|p|-||-)", sampleLink)] := by decide
  constructor
  · rw [hlinks]
    simp
  · intro m h
    rw [hmaps, hlinks]
    simp only [assocFind]
    by_cases hm : ("m1" : String) = m
    · by_cases hh : ("h(s|m1|p|-||-)" : String) = h
      · subst hm
        subst hh
        constructor
        · intro _
          exact ⟨sampleLink, by simp, rfl⟩
        · intro _
          simp
      · subst hm
        constructor
        · intro hmem
          simp at hmem
          exact absurd hmem.symm hh
        · rintro ⟨l, hl, -⟩
          rw [if_neg hh] at hl
          cases hl
    · by_cases hh : ("h(s|m1|p|-||-)" : String) = h
      · subst hh
        constructor
        · intro hmem
          rw [if_neg hm] at hmem
          simp at hmem
        · rintro ⟨l, hl, hmap⟩
          rw [if_pos rfl] at hl
          injection hl with hl2
          subst hl2
          exact absurd hmap hm
      · constructor
        · intro hmem
          rw [if_neg hm] at hmem
          simp at hmem
        · rintro ⟨l, hl, -⟩
          rw [if_neg hh] at hl
          cases hl

/-- C4: FindSegments scans every stored hash when the filter has no
mapIds or a prevLinkHash constraint, and otherwise union-scans the listed
maps; on a well-formed store both paths return exactly the result of
filtering every stored segment with the full conjunction of filter
predicates: the map-based pruning is functionally equivalent to the full
scan. -/
theorem findSegments_scan_equivalence (a : DummyStore) (f : SegmentFilter)
    (hwf : a.WF) :
    a.FindSegments f = a.findHashesSegments (a.links.map Prod.fst) f := by
  unfold DummyStore.FindSegments
  by_cases hguard : (f.mapIds.isEmpty || f.prevLinkHash.isSome) = true
  · rw [if_pos hguard]
  · rw [if_neg hguard]
    have hne : f.mapIds.isEmpty = false := by
      cases hv : f.mapIds.isEmpty with
      | false => rfl
      | true => exact absurd (by rw [hv]; rfl) hguard
    dsimp only
    unfold DummyStore.findHashesSegments
    rw [collectSegments_eq, collectSegments_eq]
    dsimp only
    rw [sortSegments_eq_of_perm (matched_filterMap_perm a f hwf hne)
      ((matched_map_linkHash_sublist a f _).nodup (mapsUnion_nodup a f.mapIds))]

/-- Closed instantiation of `findSegments_scan_equivalence` on the
one-link store with a mapIds filter (the union-scan branch). -/
theorem findSegments_scan_equivalence_witness :
    oneLinkStore.FindSegments mapFilterM1 =
      oneLinkStore.findHashesSegments (oneLinkStore.links.map Prod.fst) mapFilterM1 :=
  findSegments_scan_equivalence oneLinkStore mapFilterM1 oneLinkStore_WF

end Sdk
